import Mathlib

/-
Verification of the heading-to-page reconciliation engine of
`challenge-1a.py` (functions `clean_text_for_search`,
`remove_numbers_and_special_chars`, `search_heading_in_pdf_content`,
`estimate_page_from_surrounding_headings`, and the outline-building loop
of `extract_headings_from_html`).

Modelling conventions:
* Text is `List Char`; the ASCII fragments of the Python regex classes
  are used (`\w` as alphanumeric-or-underscore, `\s` as `Char.isWhitespace`,
  `\d` as `Char.isDigit`, `str.lower` as `Char.toLower`).
* The page corpus `pdf_content_by_page : dict` has contiguous keys
  `1..n` (built from `enumerate` in `extract_pdf_content_by_pages`), so it
  is modelled as a `List (List Char)` whose index `i` holds page `i+1`;
  `sorted(keys)` is `List.range' 1 n` and `max(keys)` is the length.
* Python's float test `match_ratio >= 0.7` with
  `match_ratio = word_matches / len(heading_words)` is modelled exactly
  over the rationals as `7 * len ≤ 10 * word_matches`.
* Python's stable `list.sort(key=..., reverse=True)` is modelled by a
  stable insertion sort (`sortDesc`).
* `AnnRec` carries the output record fields `level`, `text`, `page`
  plus `fromMatch`, a ghost flag recording whether the page came from a
  positive `search_heading_in_pdf_content` result (the `page_number is
  None` test on line 90 of the source) rather than from the estimator.
-/

/-- ASCII model of Python's regex class `\w`: letters, digits, underscore. -/
def isWordChar (c : Char) : Bool := c.isAlphanum || c = '_'

/-- Model of `re.sub(r'\s+', ' ', text)`: replace every maximal run of
whitespace by a single space (the run's last whitespace character emits
the space, the earlier ones are dropped). -/
def collapseSpaces : List Char → List Char
  | [] => []
  | [c] => if c.isWhitespace then [' '] else [c]
  | c :: d :: cs =>
    if c.isWhitespace then
      if d.isWhitespace then collapseSpaces (d :: cs)
      else ' ' :: collapseSpaces (d :: cs)
    else c :: collapseSpaces (d :: cs)

/-- Model of Python's `str.strip()`: drop whitespace from both ends. -/
def stripChars (l : List Char) : List Char :=
  ((l.dropWhile Char.isWhitespace).reverse.dropWhile Char.isWhitespace).reverse

/-- Model of `re.sub(r'[^\w\s]', ' ', text)`: each character that is
neither a word character nor whitespace becomes a space. -/
def subNonWord (l : List Char) : List Char :=
  l.map (fun c => if isWordChar c || c.isWhitespace then c else ' ')

/-- Model of `re.sub(r'\d+', '', text)`: deleting every maximal digit run
is deleting every digit. -/
def removeDigits (l : List Char) : List Char :=
  l.filter (fun c => !c.isDigit)

/-- `clean_text_for_search` (source lines 316-332): lowercase, collapse
whitespace, replace punctuation by spaces, collapse again and strip. -/
def clean_text_for_search (l : List Char) : List Char :=
  stripChars (collapseSpaces (subNonWord (collapseSpaces (l.map Char.toLower))))

/-- `remove_numbers_and_special_chars` (source lines 301-314): drop digit
runs, replace punctuation by spaces, collapse whitespace and strip. -/
def remove_numbers_and_special_chars (l : List Char) : List Char :=
  stripChars (collapseSpaces (subNonWord (removeDigits l)))

/-- Worker for `splitWords`: `acc` holds the reversed current word. -/
def splitWordsAux : List Char → List Char → List (List Char)
  | [], acc => if acc.isEmpty then [] else [acc.reverse]
  | c :: cs, acc =>
    if c.isWhitespace then
      if acc.isEmpty then splitWordsAux cs []
      else acc.reverse :: splitWordsAux cs []
    else splitWordsAux cs (c :: acc)

/-- Model of Python's argumentless `str.split()`: maximal runs of
non-whitespace characters. -/
def splitWords (l : List Char) : List (List Char) := splitWordsAux l []

/-- Python's substring test `needle in hay` on strings. -/
def containsSub (hay needle : List Char) : Bool := decide (needle <:+: hay)

/-- The text of page `p` (1-based) of the corpus. -/
def pageText (corpus : List (List Char)) (p : Nat) : List Char :=
  corpus.getD (p - 1) []

/-- `start_page` (source line 170). -/
def startPage (last_found_page : Nat) : Nat :=
  if 0 < last_found_page then last_found_page + 1 else 1

/-- `pages_to_search` (source line 173): sorted corpus keys from
`start_page` on. -/
def pagesToSearch (corpus : List (List Char)) (last_found_page : Nat) : List Nat :=
  (List.range' 1 corpus.length).filter (fun p => startPage last_found_page ≤ p)

/-- `clean_heading_no_numbers` (source lines 163-166). -/
def cleanHeadingNoNumbers (heading_text : List Char) : List Char :=
  remove_numbers_and_special_chars (clean_text_for_search heading_text)

/-- `heading_words` (source line 167). -/
def headingWords (heading_text : List Char) : List (List Char) :=
  splitWords (cleanHeadingNoNumbers heading_text)

/-- `exact_matches` of strategy 1 (source lines 177-183). -/
def exactMatchPages (corpus : List (List Char)) (heading_text : List Char)
    (last_found_page : Nat) : List Nat :=
  (pagesToSearch corpus last_found_page).filter
    (fun p => containsSub (clean_text_for_search (pageText corpus p))
                (cleanHeadingNoNumbers heading_text))

/-- `word_matches` of strategy 2 (source line 207): how many heading words
(with multiplicity) occur in the cleaned page content. -/
def wordMatchCount (corpus : List (List Char)) (heading_text : List Char)
    (p : Nat) : Nat :=
  ((headingWords heading_text).filter
    (fun w => containsSub (clean_text_for_search (pageText corpus p)) w)).length

/-- `partial_matches` of strategy 2 before sorting (source lines 201-211),
pairing each qualifying page with its word-match count (the ratio shares
the denominator `len(heading_words)`, so the count carries the ranking). -/
def partialMatchPairs (corpus : List (List Char)) (heading_text : List Char)
    (last_found_page : Nat) : List (Nat × Nat) :=
  (pagesToSearch corpus last_found_page).filterMap
    (fun p =>
      if 7 * (headingWords heading_text).length
          ≤ 10 * wordMatchCount corpus heading_text p then
        some (p, wordMatchCount corpus heading_text p)
      else none)

/-- One step of the stable insertion sort modelling
`partial_matches.sort(key=lambda x: x[1], reverse=True)`. -/
def insertDesc (x : Nat × Nat) : List (Nat × Nat) → List (Nat × Nat)
  | [] => [x]
  | y :: ys => if y.2 ≤ x.2 then x :: y :: ys else y :: insertDesc x ys

/-- Stable sort by match count, descending (source line 215). -/
def sortDesc : List (Nat × Nat) → List (Nat × Nat)
  | [] => []
  | x :: xs => insertDesc x (sortDesc xs)

/-- `partial_matches` after the in-place sort (source line 215). -/
def partialMatchesSorted (corpus : List (List Char)) (heading_text : List Char)
    (last_found_page : Nat) : List (Nat × Nat) :=
  sortDesc (partialMatchPairs corpus heading_text last_found_page)

/-- `sequence_matches` of strategy 3 (source lines 231-242): pages on which
some 3-word window of the heading occurs as a phrase. -/
def seqMatchPages (corpus : List (List Char)) (heading_text : List Char)
    (last_found_page : Nat) : List Nat :=
  (pagesToSearch corpus last_found_page).filter
    (fun p =>
      (List.range ((headingWords heading_text).length - 2)).any
        (fun i => containsSub (clean_text_for_search (pageText corpus p))
          (List.intercalate [' '] (((headingWords heading_text).drop i).take 3))))

/-- The selection policy shared by the three strategies (source lines
185-197, 217-227, 244-255): a single candidate is returned; with several
candidates and `last_found_page == 0` the second is returned; otherwise
the first. -/
def pickCandidate {α : Type} (d : α) (last_found_page : Nat) (l : List α) : α :=
  if l.length = 1 then l.getD 0 d
  else if last_found_page = 0 ∧ 1 < l.length then l.getD 1 d
  else l.getD 0 d

/-- `search_heading_in_pdf_content` (source lines 147-259). -/
def search_heading_in_pdf_content (heading_text : List Char)
    (corpus : List (List Char)) (last_found_page : Nat) : Option Nat :=
  if corpus = [] then none
  else if exactMatchPages corpus heading_text last_found_page ≠ [] then
    some (pickCandidate 0 last_found_page
      (exactMatchPages corpus heading_text last_found_page))
  else if 2 ≤ (headingWords heading_text).length
      ∧ partialMatchPairs corpus heading_text last_found_page ≠ [] then
    some (pickCandidate (0, 0) last_found_page
      (partialMatchesSorted corpus heading_text last_found_page)).1
  else if 3 ≤ (headingWords heading_text).length
      ∧ seqMatchPages corpus heading_text last_found_page ≠ [] then
    some (pickCandidate 0 last_found_page
      (seqMatchPages corpus heading_text last_found_page))
  else none

/-- An outline record: `level`, `text`, `page` as appended on source lines
97-101, plus the ghost flag `fromMatch` (see the module comment). -/
structure AnnRec where
  level : String
  text : List Char
  page : Nat
  fromMatch : Bool
deriving DecidableEq

/-- Default record used with `List.getD`. -/
def dRec : AnnRec := ⟨"", [], 0, false⟩

/-- `estimate_page_from_surrounding_headings` (source lines 261-299).
`heading.get("page")` is truthy exactly when the stored page is nonzero;
`max(pdf_content_by_page.keys())` is the corpus length, with the
hardcoded default `6` when the corpus is empty. -/
def estimate_page_from_surrounding_headings (_heading_text : List Char)
    (existing_outline : List AnnRec) (corpus : List (List Char))
    (last_found_page : Nat) : Nat :=
  if existing_outline = [] then 1
  else if 0 < last_found_page then
    min (last_found_page + 1) (if corpus ≠ [] then corpus.length else 6)
  else
    match existing_outline.reverse.find? (fun h => h.page ≠ 0) with
    | some h => min (h.page + 1) (if corpus ≠ [] then corpus.length else 6)
    | none => 1

/-- One iteration of the outline loop (source lines 78-107): skip text of
trimmed length ≤ 2, otherwise locate (falling back to the estimator),
update the cursor when the page strictly advances it, and append the
record. -/
def processHeading (corpus : List (List Char)) (st : List AnnRec × Nat)
    (h : String × List Char) : List AnnRec × Nat :=
  let text := stripChars h.2
  if text ≠ [] ∧ 2 < text.length then
    let located := search_heading_in_pdf_content text corpus st.2
    let page_number :=
      match located with
      | some p => p
      | none => estimate_page_from_surrounding_headings text st.1 corpus st.2
    let last' := if page_number ≠ 0 ∧ st.2 < page_number then page_number else st.2
    (st.1 ++ [⟨h.1, text, page_number, located.isSome⟩], last')
  else st

/-- The outline-building loop of `extract_headings_from_html` (source
lines 75-108), over pre-extracted `(level, raw text)` pairs; returns the
outline together with the final cursor. -/
def extract_headings_from_html (corpus : List (List Char))
    (headings : List (String × List Char)) : List AnnRec × Nat :=
  headings.foldl (processHeading corpus) ([], 0)

/-! ### Basic lemmas about the search window and candidate lists -/

/-- A `getD` at an index below the length is a member. -/
theorem getD_mem_of_lt {α : Type} (l : List α) (i : Nat) (d : α)
    (h : i < l.length) : l.getD i d ∈ l := by
  have : l.getD i d = l.get ⟨i, h⟩ := by
    simp [List.getD_eq_getElem?_getD, List.getElem?_eq_getElem h]
  rw [this]
  exact List.get_mem l i h

/-- Every page of the search window is a corpus page strictly beyond the
cursor. -/
theorem pagesToSearch_mem {corpus : List (List Char)} {last_found_page p : Nat}
    (h : p ∈ pagesToSearch corpus last_found_page) :
    1 ≤ p ∧ p ≤ corpus.length ∧ last_found_page < p := by
  unfold pagesToSearch at h
  rw [List.mem_filter] at h
  obtain ⟨h1, h2⟩ := h
  rw [List.mem_range'_1] at h1
  have h2' : startPage last_found_page ≤ p := by simpa using h2
  unfold startPage at h2'
  refine ⟨h1.1, by omega, ?_⟩
  split at h2' <;> omega

/-- The search window is strictly increasing. -/
theorem pagesToSearch_pairwise (corpus : List (List Char)) (last_found_page : Nat) :
    (pagesToSearch corpus last_found_page).Pairwise (· < ·) :=
  (List.pairwise_lt_range' 1 corpus.length).filter _

/-- The selection policy always picks a member of the candidate list. -/
theorem pickCandidate_mem {α : Type} (d : α) (last_found_page : Nat)
    {l : List α} (h : l ≠ []) : pickCandidate d last_found_page l ∈ l := by
  have hlen : 0 < l.length := List.length_pos.mpr h
  unfold pickCandidate
  split
  · exact getD_mem_of_lt l 0 d hlen
  · split
    · next hc => exact getD_mem_of_lt l 1 d hc.2
    · exact getD_mem_of_lt l 0 d hlen

/-- With at least two candidates and a zero cursor, the policy picks the
second candidate. -/
theorem pickCandidate_second {α : Type} (d : α) {l : List α}
    (h : 2 ≤ l.length) : pickCandidate d 0 l = l.getD 1 d := by
  unfold pickCandidate
  split
  · omega
  · split
    · rfl
    · next hc => exact absurd ⟨rfl, by omega⟩ hc

/-- Membership in `insertDesc`. -/
theorem insertDesc_mem {x y : Nat × Nat} {l : List (Nat × Nat)} :
    y ∈ insertDesc x l ↔ y = x ∨ y ∈ l := by
  induction l with
  | nil => simp [insertDesc]
  | cons z zs ih =>
    unfold insertDesc
    split
    · simp only [List.mem_cons]
    · simp only [List.mem_cons, ih]
      tauto

/-- `insertDesc` permutes consing. -/
theorem insertDesc_perm (x : Nat × Nat) (l : List (Nat × Nat)) :
    List.Perm (insertDesc x l) (x :: l) := by
  induction l with
  | nil => simp [insertDesc]
  | cons z zs ih =>
    unfold insertDesc
    split
    · exact List.Perm.refl _
    · exact (List.Perm.cons z ih).trans (List.Perm.swap x z zs)

/-- The stable sort is a permutation of its input. -/
theorem sortDesc_perm (l : List (Nat × Nat)) : List.Perm (sortDesc l) l := by
  induction l with
  | nil => simp [sortDesc]
  | cons x xs ih =>
    unfold sortDesc
    exact (insertDesc_perm x _).trans (List.Perm.cons x ih)

/-- Membership is preserved by the stable sort. -/
theorem sortDesc_mem {x : Nat × Nat} {l : List (Nat × Nat)} :
    x ∈ sortDesc l ↔ x ∈ l := (sortDesc_perm l).mem_iff

/-- Length is preserved by the stable sort. -/
theorem sortDesc_length (l : List (Nat × Nat)) :
    (sortDesc l).length = l.length := (sortDesc_perm l).length_eq

/-- Every strategy-2 pair is a window page with its word-match count. -/
theorem partialMatchPairs_mem {corpus : List (List Char)}
    {heading_text : List Char} {last_found_page : Nat} {x : Nat × Nat}
    (h : x ∈ partialMatchPairs corpus heading_text last_found_page) :
    x.1 ∈ pagesToSearch corpus last_found_page
      ∧ x.2 = wordMatchCount corpus heading_text x.1
      ∧ 7 * (headingWords heading_text).length
          ≤ 10 * wordMatchCount corpus heading_text x.1 := by
  unfold partialMatchPairs at h
  rw [List.mem_filterMap] at h
  obtain ⟨p, hp, hfx⟩ := h
  split at hfx
  · next hcond =>
    cases hfx
    exact ⟨hp, rfl, hcond⟩
  · exact absurd hfx (by simp)

/-- A positive Locator result lies in the search window. -/
theorem search_mem_pagesToSearch {heading_text : List Char}
    {corpus : List (List Char)} {last_found_page p : Nat}
    (h : search_heading_in_pdf_content heading_text corpus last_found_page = some p) :
    p ∈ pagesToSearch corpus last_found_page := by
  unfold search_heading_in_pdf_content at h
  split at h
  · exact Option.noConfusion h
  · split at h
    · next hne =>
      injection h with h'
      subst h'
      exact List.mem_of_mem_filter (pickCandidate_mem 0 last_found_page hne)
    · split at h
      · next hc =>
        injection h with h'
        subst h'
        have hne : partialMatchesSorted corpus heading_text last_found_page ≠ [] := by
          unfold partialMatchesSorted
          intro hnil
          have := sortDesc_length (partialMatchPairs corpus heading_text last_found_page)
          rw [hnil] at this
          exact hc.2 (List.length_eq_zero.mp this.symm)
        have hmem := pickCandidate_mem (0, 0) last_found_page hne
        rw [partialMatchesSorted, sortDesc_mem] at hmem
        exact (partialMatchPairs_mem hmem).1
      · split at h
        · next hc =>
          injection h with h'
          subst h'
          exact List.mem_of_mem_filter (pickCandidate_mem 0 last_found_page hc.2)
        · exact Option.noConfusion h

/-- Facts about a positive Locator result: it is a valid corpus page
strictly beyond the cursor. -/
theorem search_some_facts {heading_text : List Char}
    {corpus : List (List Char)} {last_found_page p : Nat}
    (h : search_heading_in_pdf_content heading_text corpus last_found_page = some p) :
    1 ≤ p ∧ p ≤ corpus.length ∧ last_found_page < p :=
  pagesToSearch_mem (search_mem_pagesToSearch h)

/-- The Fallback Estimator always returns a positive page. -/
theorem estimate_pos (heading_text : List Char) (existing_outline : List AnnRec)
    (corpus : List (List Char)) (last_found_page : Nat) :
    1 ≤ estimate_page_from_surrounding_headings heading_text existing_outline
      corpus last_found_page := by
  have h6 : 1 ≤ (if corpus ≠ [] then corpus.length else 6) := by
    split
    · next hc => exact List.length_pos.mpr hc
    · omega
  unfold estimate_page_from_surrounding_headings
  split
  · exact le_refl 1
  · split
    · omega
    · split
      · omega
      · exact le_refl 1

/-- The ranking order of strategy 2: match count descending, ties broken
by ascending page number. -/
def rankRel (a b : Nat × Nat) : Prop := b.2 < a.2 ∨ (a.2 = b.2 ∧ a.1 < b.1)

/-- Inserting an element whose page precedes every page of an already
ranked list keeps the list ranked. -/
theorem insertDesc_pairwise {x : Nat × Nat} {l : List (Nat × Nat)}
    (hl : l.Pairwise rankRel) (hx : ∀ y ∈ l, x.1 < y.1) :
    (insertDesc x l).Pairwise rankRel := by
  induction l with
  | nil => simp [insertDesc, rankRel]
  | cons z zs ih =>
    rw [List.pairwise_cons] at hl
    unfold insertDesc
    split
    · next hle =>
      rw [List.pairwise_cons]
      constructor
      · intro y hy
        rcases List.mem_cons.mp hy with hyz | hyzs
        · subst hyz
          rcases Nat.lt_or_ge y.2 x.2 with hlt | hge
          · exact Or.inl hlt
          · exact Or.inr ⟨by omega, hx y (List.mem_cons_self _ _)⟩
        · rcases hl.1 y hyzs with hlt | ⟨heq, _⟩
          · exact Or.inl (Nat.lt_of_lt_of_le hlt hle)
          · rcases Nat.lt_or_ge y.2 x.2 with hlt' | hge'
            · exact Or.inl hlt'
            · exact Or.inr ⟨by omega, hx y (List.mem_cons_of_mem _ hyzs)⟩
      · exact List.pairwise_cons.mpr hl
    · next hgt =>
      rw [List.pairwise_cons]
      constructor
      · intro y hy
        rcases insertDesc_mem.mp hy with hyx | hyzs
        · subst hyx
          exact Or.inl (Nat.lt_of_not_le hgt)
        · exact hl.1 y hyzs
      · exact ih hl.2 (fun y hy => hx y (List.mem_cons_of_mem _ hy))

/-- Sorting a list of pairs with strictly ascending pages yields a list
ranked by count descending with ties in ascending page order (this is the
stability of Python's `list.sort`). -/
theorem sortDesc_pairwise {l : List (Nat × Nat)}
    (h : l.Pairwise (fun a b => a.1 < b.1)) :
    (sortDesc l).Pairwise rankRel := by
  induction l with
  | nil => simp [sortDesc]
  | cons x xs ih =>
    rw [List.pairwise_cons] at h
    unfold sortDesc
    refine insertDesc_pairwise (ih h.2) ?_
    intro y hy
    exact h.1 y (sortDesc_mem.mp hy)

/-- The strategy-2 pairs are listed in ascending page order. -/
theorem partialMatchPairs_pairwise_fst (corpus : List (List Char))
    (heading_text : List Char) (last_found_page : Nat) :
    (partialMatchPairs corpus heading_text last_found_page).Pairwise
      (fun a b => a.1 < b.1) := by
  unfold partialMatchPairs
  refine List.Pairwise.filterMap _ ?_ (pagesToSearch_pairwise corpus last_found_page)
  intro a a' hlt b hb b' hb'
  rw [Option.mem_def] at hb hb'
  split at hb
  · cases hb
    split at hb'
    · cases hb'
      exact hlt
    · exact absurd hb' (by simp)
  · exact absurd hb (by simp)

/-- A non-empty search window comes from a non-empty corpus. -/
theorem pagesToSearch_corpus_ne {corpus : List (List Char)} {last_found_page p : Nat}
    (h : p ∈ pagesToSearch corpus last_found_page) : corpus ≠ [] := by
  have hf := pagesToSearch_mem h
  intro hnil
  rw [hnil] at hf
  simp only [List.length_nil] at hf
  omega

/-- C4: if the normalized heading text appears verbatim on exactly one
page of the search window, the Locator returns that page; later
strategies are never consulted because strategy 1 already has a
candidate. -/
theorem C4_exact_match_priority (corpus : List (List Char))
    (heading_text : List Char) (last_found_page p : Nat)
    (h : exactMatchPages corpus heading_text last_found_page = [p]) :
    search_heading_in_pdf_content heading_text corpus last_found_page = some p := by
  have hp : p ∈ exactMatchPages corpus heading_text last_found_page := by
    rw [h]; exact List.mem_singleton_self p
  have hc : corpus ≠ [] := pagesToSearch_corpus_ne (List.mem_of_mem_filter hp)
  unfold search_heading_in_pdf_content
  rw [if_neg hc, h, if_pos (List.cons_ne_nil p [])]
  simp [pickCandidate]

/-- C4 witness: heading "alpha beta" matches exactly only on page 1 even
though page 2 qualifies under word overlap. -/
theorem C4_witness :
    exactMatchPages ["alpha beta".data, "alpha xx beta".data] "alpha beta".data 0 = [1]
    ∧ search_heading_in_pdf_content "alpha beta".data
        ["alpha beta".data, "alpha xx beta".data] 0 = some 1 :=
  ⟨by decide,
   C4_exact_match_priority ["alpha beta".data, "alpha xx beta".data]
     "alpha beta".data 0 1 (by decide)⟩

/-- C5: with `last_found_page = 0`, whenever the strategy that fires has
two or more candidates, the Locator returns the second candidate in
ranked (strategy 2) or ascending (strategies 1 and 3) order. -/
theorem C5_skip_first_occurrence (corpus : List (List Char))
    (heading_text : List Char) :
    (2 ≤ (exactMatchPages corpus heading_text 0).length →
      search_heading_in_pdf_content heading_text corpus 0
        = some ((exactMatchPages corpus heading_text 0).getD 1 0))
    ∧ (exactMatchPages corpus heading_text 0 = [] →
      2 ≤ (headingWords heading_text).length →
      2 ≤ (partialMatchPairs corpus heading_text 0).length →
      search_heading_in_pdf_content heading_text corpus 0
        = some ((partialMatchesSorted corpus heading_text 0).getD 1 (0, 0)).1)
    ∧ (exactMatchPages corpus heading_text 0 = [] →
      partialMatchPairs corpus heading_text 0 = [] →
      3 ≤ (headingWords heading_text).length →
      2 ≤ (seqMatchPages corpus heading_text 0).length →
      search_heading_in_pdf_content heading_text corpus 0
        = some ((seqMatchPages corpus heading_text 0).getD 1 0)) := by
  refine ⟨?_, ?_, ?_⟩
  · intro hlen
    have hne : exactMatchPages corpus heading_text 0 ≠ [] := by
      intro hnil; rw [hnil] at hlen; simp at hlen
    have hx : (exactMatchPages corpus heading_text 0).getD 0 0
        ∈ exactMatchPages corpus heading_text 0 :=
      getD_mem_of_lt _ 0 0 (by omega)
    have hc : corpus ≠ [] := pagesToSearch_corpus_ne (List.mem_of_mem_filter hx)
    unfold search_heading_in_pdf_content
    rw [if_neg hc, if_pos hne, pickCandidate_second 0 hlen]
  · intro hexact hw hlen
    have hpne : partialMatchPairs corpus heading_text 0 ≠ [] := by
      intro hnil; rw [hnil] at hlen; simp at hlen
    have hx : (partialMatchPairs corpus heading_text 0).getD 0 (0, 0)
        ∈ partialMatchPairs corpus heading_text 0 :=
      getD_mem_of_lt _ 0 (0, 0) (by omega)
    have hc : corpus ≠ [] := pagesToSearch_corpus_ne (partialMatchPairs_mem hx).1
    unfold search_heading_in_pdf_content
    rw [if_neg hc, if_neg (not_not_intro hexact), if_pos ⟨hw, hpne⟩]
    rw [pickCandidate_second (0, 0)
      (by rw [partialMatchesSorted, sortDesc_length]; exact hlen)]
  · intro hexact hpartial hw hlen
    have hsne : seqMatchPages corpus heading_text 0 ≠ [] := by
      intro hnil; rw [hnil] at hlen; simp at hlen
    have hx : (seqMatchPages corpus heading_text 0).getD 0 0
        ∈ seqMatchPages corpus heading_text 0 :=
      getD_mem_of_lt _ 0 0 (by omega)
    have hc : corpus ≠ [] := pagesToSearch_corpus_ne (List.mem_of_mem_filter hx)
    unfold search_heading_in_pdf_content
    rw [if_neg hc, if_neg (not_not_intro hexact),
      if_neg (fun hcon => hcon.2 hpartial), if_pos ⟨hw, hsne⟩,
      pickCandidate_second 0 hlen]

/-- C5 witness: "hello world" appears verbatim on pages 3 and 7 of a
7-page corpus and the cursor is 0, so the Locator returns 7, not 3. -/
theorem C5_witness :
    search_heading_in_pdf_content "hello world".data
      ["x".data, "y".data, "hello world".data, "z".data, "w".data, "v".data,
       "more hello world text".data] 0
      = some ((exactMatchPages
          ["x".data, "y".data, "hello world".data, "z".data, "w".data, "v".data,
           "more hello world text".data] "hello world".data 0).getD 1 0)
    ∧ (exactMatchPages
        ["x".data, "y".data, "hello world".data, "z".data, "w".data, "v".data,
         "more hello world text".data] "hello world".data 0) = [3, 7] :=
  ⟨(C5_skip_first_occurrence _ "hello world".data).1 (by decide), by decide⟩

/-- C6: with a positive cursor the Locator never returns a page at or
before the cursor, by any of the three strategies. -/
theorem C6_forward_window (corpus : List (List Char)) (heading_text : List Char)
    (last_found_page p : Nat) (hpos : 0 < last_found_page)
    (h : search_heading_in_pdf_content heading_text corpus last_found_page = some p) :
    last_found_page + 1 ≤ p := by
  have hf := search_some_facts h
  omega

/-- C6 witness: cursor 1 on a corpus whose heading occurs on every page;
the match on page 1 is skipped and page 2 returned. -/
theorem C6_witness :
    search_heading_in_pdf_content "abcd".data
      ["abcd".data, "abcd".data, "abcd".data] 1 = some 2
    ∧ 1 + 1 ≤ 2 :=
  ⟨by decide,
   C6_forward_window ["abcd".data, "abcd".data, "abcd".data] "abcd".data 1 2
     (by decide) (by decide)⟩

/-- C7: strategy 2 is consulted only for headings of at least 2 words (a
1-word heading with no exact match resolves to nothing at all); a page
qualifies exactly when at least 70 percent of the heading words occur in
its normalized text; and the candidate list is ranked by match count
descending with ties broken by ascending page number. -/
theorem C7_word_overlap (corpus : List (List Char)) (heading_text : List Char)
    (last_found_page : Nat) :
    ((headingWords heading_text).length < 2 →
      exactMatchPages corpus heading_text last_found_page = [] →
      search_heading_in_pdf_content heading_text corpus last_found_page = none)
    ∧ (∀ p, p ∈ (partialMatchPairs corpus heading_text last_found_page).map Prod.fst
        ↔ p ∈ pagesToSearch corpus last_found_page
          ∧ 7 * (headingWords heading_text).length
              ≤ 10 * wordMatchCount corpus heading_text p)
    ∧ List.Perm (partialMatchesSorted corpus heading_text last_found_page)
        (partialMatchPairs corpus heading_text last_found_page)
    ∧ (partialMatchesSorted corpus heading_text last_found_page).Pairwise rankRel := by
  refine ⟨?_, ?_, ?_, ?_⟩
  · intro hw hexact
    unfold search_heading_in_pdf_content
    split
    · rfl
    · rw [if_neg (not_not_intro hexact),
        if_neg (fun hcon => absurd hcon.1 (by omega)),
        if_neg (fun hcon => absurd hcon.1 (by omega))]
  · intro p
    constructor
    · intro hp
      rw [List.mem_map] at hp
      obtain ⟨x, hx, hxp⟩ := hp
      obtain ⟨h1, _, h3⟩ := partialMatchPairs_mem hx
      exact ⟨hxp ▸ h1, hxp ▸ h3⟩
    · rintro ⟨hp, hq⟩
      rw [List.mem_map]
      refine ⟨(p, wordMatchCount corpus heading_text p), ?_, rfl⟩
      unfold partialMatchPairs
      rw [List.mem_filterMap]
      exact ⟨p, hp, by rw [if_pos hq]⟩
  · exact sortDesc_perm _
  · exact sortDesc_pairwise (partialMatchPairs_pairwise_fst corpus heading_text last_found_page)

/-- C7 witness: a 1-word heading with no exact match yields no result;
a scrambled 3-of-3-word page qualifies under strategy 2. -/
theorem C7_witness :
    search_heading_in_pdf_content "abc".data ["zz".data] 0 = none
    ∧ 1 ∈ (partialMatchPairs ["gamma xx alpha yy beta".data]
        "alpha beta gamma".data 0).map Prod.fst :=
  ⟨(C7_word_overlap ["zz".data] "abc".data 0).1 (by decide) (by decide),
   ((C7_word_overlap ["gamma xx alpha yy beta".data] "alpha beta gamma".data 0).2.1 1).mpr
     (by decide)⟩

/-- C2 counterexample: the claim predicts that heading "abc" is an exact
candidate on the page "a1bc" (whose digit-stripped normalization contains
"abc"), yet the code cleans the page text without stripping digits, finds
no candidate under any strategy, and reports unresolved. -/
theorem C2_counterexample :
    search_heading_in_pdf_content "abc".data ["a1bc".data] 0 = none
    ∧ (cleanHeadingNoNumbers "abc".data
        <:+: remove_numbers_and_special_chars (clean_text_for_search "a1bc".data))
    ∧ exactMatchPages ["a1bc".data] "abc".data 0 = [] := by
  refine ⟨by decide, by decide, by decide⟩

/-- C2 amended: page `p` is a strategy-1 candidate iff it lies in the
search window and the strict-normalized heading text is a substring of
the page text normalized by `clean_text_for_search` alone — lowercased,
punctuation replaced by spaces, whitespace collapsed and trimmed, with
digits retained (the page text is not digit-stripped). -/
theorem C2_exact_match_normalization (corpus : List (List Char))
    (heading_text : List Char) (last_found_page p : Nat) :
    p ∈ exactMatchPages corpus heading_text last_found_page
    ↔ p ∈ pagesToSearch corpus last_found_page
      ∧ cleanHeadingNoNumbers heading_text
          <:+: clean_text_for_search (pageText corpus p) := by
  unfold exactMatchPages
  rw [List.mem_filter]
  simp [containsSub]

/-- C2 witness: page 1 of a one-page corpus is an exact candidate for a
heading occurring verbatim on it. -/
theorem C2_witness :
    1 ∈ exactMatchPages ["xx abc yy".data] "abc".data 0 :=
  (C2_exact_match_normalization ["xx abc yy".data] "abc".data 0 1).mpr (by decide)

/-- C3 counterexample: with an empty already-processed list the estimator
returns 1 even though `lastFoundPage = 1 > 0` and the two-page corpus
would give `min(1+1, 2) = 2`. -/
theorem C3_counterexample :
    estimate_page_from_surrounding_headings "x".data [] ["a".data, "b".data] 1 = 1
    ∧ min (1 + 1) 2 = 2 ∧ (1 : Nat) ≠ 2 := by
  refine ⟨by decide, by decide, by decide⟩

/-- C3 amended: the `min(lastFoundPage+1, corpusMaxPage)` rule holds only
when at least one heading has already been processed (the estimator
returns 1 outright on an empty processed list, regardless of the cursor);
the cursor-0, no-known-page case still returns 1. -/
theorem C3_estimator (heading_text : List Char) (existing_outline : List AnnRec)
    (corpus : List (List Char)) (last_found_page : Nat) :
    (existing_outline ≠ [] → 0 < last_found_page → corpus ≠ [] →
      estimate_page_from_surrounding_headings heading_text existing_outline
        corpus last_found_page = min (last_found_page + 1) corpus.length)
    ∧ (existing_outline = [] →
      estimate_page_from_surrounding_headings heading_text existing_outline
        corpus last_found_page = 1)
    ∧ (last_found_page = 0 → (∀ r ∈ existing_outline, r.page = 0) →
      estimate_page_from_surrounding_headings heading_text existing_outline
        corpus last_found_page = 1) := by
  refine ⟨?_, ?_, ?_⟩
  · intro hne hpos hc
    unfold estimate_page_from_surrounding_headings
    rw [if_neg hne, if_pos hpos, if_pos hc]
  · intro he
    unfold estimate_page_from_surrounding_headings
    rw [if_pos he]
  · intro h0 hall
    by_cases ho : existing_outline = []
    · unfold estimate_page_from_surrounding_headings
      rw [if_pos ho]
    · unfold estimate_page_from_surrounding_headings
      rw [if_neg ho, if_neg (by omega)]
      have hnone : existing_outline.reverse.find? (fun r => r.page ≠ 0) = none := by
        rw [List.find?_eq_none]
        intro r hr
        simp [hall r (List.mem_reverse.mp hr)]
      rw [hnone]

/-- C3 witness: a nonempty processed list, cursor 1 and a two-page corpus
give `min(1+1, 2) = 2`; an empty list gives 1; a cursor-0 list whose only
record has page 0 gives 1. -/
theorem C3_witness :
    estimate_page_from_surrounding_headings "x".data
      [⟨"H1", "aaa".data, 3, true⟩] ["a".data, "b".data] 1 = min (1 + 1) 2
    ∧ estimate_page_from_surrounding_headings "x".data [] ["a".data, "b".data] 0 = 1
    ∧ estimate_page_from_surrounding_headings "x".data
        [⟨"H1", "aaa".data, 0, false⟩] ["a".data, "b".data] 0 = 1 :=
  ⟨(C3_estimator "x".data [⟨"H1", "aaa".data, 3, true⟩] ["a".data, "b".data] 1).1
      (by decide) (by decide) (by decide),
   (C3_estimator "x".data [] ["a".data, "b".data] 0).2.1 rfl,
   (C3_estimator "x".data [⟨"H1", "aaa".data, 0, false⟩] ["a".data, "b".data] 0).2.2
      rfl (by decide)⟩

/-! ### The outline-building pass -/

/-- On an empty corpus the Locator is always unresolved (source lines
159-160). -/
theorem search_empty_corpus (heading_text : List Char) (last_found_page : Nat) :
    search_heading_in_pdf_content heading_text [] last_found_page = none := rfl

/-- `processHeading` when the heading is skipped by the length filter. -/
theorem processHeading_eq_of_skip (corpus : List (List Char))
    (st : List AnnRec × Nat) (h : String × List Char)
    (hcond : ¬(stripChars h.2 ≠ [] ∧ 2 < (stripChars h.2).length)) :
    processHeading corpus st h = st := by
  simp only [processHeading]
  rw [if_neg hcond]

/-- `processHeading` when the Locator resolves the heading. -/
theorem processHeading_eq_of_some (corpus : List (List Char))
    (st : List AnnRec × Nat) (h : String × List Char) (p : Nat)
    (hcond : stripChars h.2 ≠ [] ∧ 2 < (stripChars h.2).length)
    (hloc : search_heading_in_pdf_content (stripChars h.2) corpus st.2 = some p) :
    processHeading corpus st h
      = (st.1 ++ [⟨h.1, stripChars h.2, p, true⟩],
         if p ≠ 0 ∧ st.2 < p then p else st.2) := by
  simp only [processHeading]
  rw [if_pos hcond, hloc]
  rfl

/-- `processHeading` when the Locator is unresolved and the estimator
supplies the page. -/
theorem processHeading_eq_of_none (corpus : List (List Char))
    (st : List AnnRec × Nat) (h : String × List Char)
    (hcond : stripChars h.2 ≠ [] ∧ 2 < (stripChars h.2).length)
    (hloc : search_heading_in_pdf_content (stripChars h.2) corpus st.2 = none) :
    processHeading corpus st h
      = (st.1 ++ [⟨h.1, stripChars h.2,
          estimate_page_from_surrounding_headings (stripChars h.2) st.1 corpus st.2,
          false⟩],
         if estimate_page_from_surrounding_headings (stripChars h.2) st.1 corpus st.2 ≠ 0
            ∧ st.2 < estimate_page_from_surrounding_headings (stripChars h.2) st.1 corpus st.2
         then estimate_page_from_surrounding_headings (stripChars h.2) st.1 corpus st.2
         else st.2) := by
  simp only [processHeading]
  rw [if_pos hcond, hloc]
  rfl

/-- Any property preserved by one outline step holds after the whole pass. -/
theorem foldl_processHeading_inv (corpus : List (List Char))
    (P : List AnnRec × Nat → Prop)
    (hstep : ∀ st h, P st → P (processHeading corpus st h)) :
    ∀ (hs : List (String × List Char)) (st : List AnnRec × Nat),
      P st → P (List.foldl (processHeading corpus) st hs) := by
  intro hs
  induction hs with
  | nil => intro st hst; exact hst
  | cons h t ih => intro st hst; exact ih _ (hstep st h hst)

/-- `getD` of an append below the left length. -/
theorem getD_append_lt {α : Type} (l₁ l₂ : List α) (i : Nat) (d : α)
    (h : i < l₁.length) : (l₁ ++ l₂).getD i d = l₁.getD i d := by
  rw [List.getD_eq_getElem?_getD, List.getD_eq_getElem?_getD,
    List.getElem?_append_left h]

/-- `getD` of an appended singleton at the left length. -/
theorem getD_append_len {α : Type} (l : List α) (x : α) (d : α) :
    (l ++ [x]).getD l.length d = x := by
  rw [List.getD_eq_getElem?_getD, List.getElem?_append_right (le_refl l.length)]
  simp

/-- Invariant of the outline pass over an empty corpus: the cursor equals
the record count capped at the estimator's default max page 6, and the
i-th record carries page `min (i+1) 6`. -/
def emptyCorpusInv (st : List AnnRec × Nat) : Prop :=
  st.2 = min st.1.length 6
  ∧ ∀ i, i < st.1.length → (st.1.getD i dRec).page = min (i + 1) 6

/-- One outline step over the empty corpus preserves `emptyCorpusInv`. -/
theorem processHeading_emptyCorpus (st : List AnnRec × Nat)
    (h : String × List Char) (hinv : emptyCorpusInv st) :
    emptyCorpusInv (processHeading [] st h) := by
  obtain ⟨hc, hp⟩ := hinv
  by_cases hcond : stripChars h.2 ≠ [] ∧ 2 < (stripChars h.2).length
  · rw [processHeading_eq_of_none [] st h hcond (search_empty_corpus _ _)]
    have hqval : estimate_page_from_surrounding_headings (stripChars h.2) st.1 [] st.2
        = min (st.1.length + 1) 6 := by
      unfold estimate_page_from_surrounding_headings
      by_cases ho : st.1 = []
      · rw [if_pos ho, ho]
        simp
      · have hlen : 1 ≤ st.1.length := List.length_pos.mpr ho
        rw [if_neg ho, if_pos (by omega : 0 < st.2), if_neg (by simp)]
        omega
    rw [hqval]
    constructor
    · simp only [List.length_append, List.length_singleton]
      split
      · omega
      · omega
    · intro i hi
      simp only [List.length_append, List.length_singleton] at hi
      by_cases hilt : i < st.1.length
      · rw [getD_append_lt _ _ _ _ hilt]
        exact hp i hilt
      · have hie : i = st.1.length := by omega
        subst hie
        rw [getD_append_len]
  · rw [processHeading_eq_of_skip [] st h hcond]
    exact ⟨hc, hp⟩

/-- C1 counterexample: on an empty corpus the run over two headings
produces pages [1, 2] — the second record does not carry page 1, because
the estimator's empty-corpus branch clamps to the hardcoded default 6
rather than to 1. -/
theorem C1_counterexample :
    ((extract_headings_from_html [] [("H1", "aaa".data), ("H2", "bbb".data)]).1.map
      (fun r => r.page)) = [1, 2]
    ∧ ¬(∀ r ∈ (extract_headings_from_html []
        [("H1", "aaa".data), ("H2", "bbb".data)]).1, r.page = 1) := by
  refine ⟨by decide, by decide⟩

/-- C1 amended: on an empty corpus the Locator reports unresolved for
every heading; the fallback gives the first record page 1 and each later
record `min(lastFoundPage+1, 6)` (6 being the estimator's default max
page for an empty corpus), so the i-th output record carries page
`min (i+1) 6` rather than always 1. -/
theorem C1_empty_corpus :
    (∀ (heading_text : List Char) (last_found_page : Nat),
      search_heading_in_pdf_content heading_text [] last_found_page = none)
    ∧ ∀ (hs : List (String × List Char)) (i : Nat),
        i < ((extract_headings_from_html [] hs).1).length →
        (((extract_headings_from_html [] hs).1).getD i dRec).page = min (i + 1) 6 := by
  constructor
  · intro t lfp
    exact search_empty_corpus t lfp
  · intro hs i hi
    have hinv : emptyCorpusInv (extract_headings_from_html [] hs) :=
      foldl_processHeading_inv [] emptyCorpusInv processHeading_emptyCorpus hs
        ([], 0) ⟨by simp, by intro i hi; simp at hi⟩
    exact hinv.2 i hi

/-- C1 witness: an eight-heading run over the empty corpus; the record at
index 6 carries page `min 7 6 = 6`, and the Locator is unresolved. -/
theorem C1_witness :
    search_heading_in_pdf_content "xyz".data [] 4 = none
    ∧ (((extract_headings_from_html []
        [("H1", "aaa".data), ("H2", "bbb".data), ("H3", "ccc".data),
         ("H4", "ddd".data), ("H5", "eee".data), ("H6", "fff".data),
         ("H1", "ggg".data), ("H2", "hhh".data)]).1).getD 6 dRec).page = min 7 6 :=
  ⟨C1_empty_corpus.1 "xyz".data 4,
   C1_empty_corpus.2
     [("H1", "aaa".data), ("H2", "bbb".data), ("H3", "ccc".data),
      ("H4", "ddd".data), ("H5", "eee".data), ("H6", "fff".data),
      ("H1", "ggg".data), ("H2", "hhh".data)] 6 (by decide)⟩

/-- The adjacency relation of the monotone-cursor property: a record
resolved by a positive match is never followed by a fallback record with
a smaller page. -/
def matchRel (a b : AnnRec) : Prop :=
  a.fromMatch = true → b.fromMatch = false → a.page ≤ b.page

/-- Invariant of the outline pass: adjacent records satisfy `matchRel`,
and every match-resolved record's page is a valid corpus page at or below
the cursor. -/
def cursorInv (corpus : List (List Char)) (st : List AnnRec × Nat) : Prop :=
  List.Chain' matchRel st.1
  ∧ ∀ r ∈ st.1, r.fromMatch = true →
      1 ≤ r.page ∧ r.page ≤ st.2 ∧ r.page ≤ corpus.length

/-- One outline step preserves `cursorInv`. -/
theorem processHeading_cursorInv (corpus : List (List Char))
    (st : List AnnRec × Nat) (h : String × List Char)
    (hinv : cursorInv corpus st) : cursorInv corpus (processHeading corpus st h) := by
  obtain ⟨hch, hrec⟩ := hinv
  by_cases hcond : stripChars h.2 ≠ [] ∧ 2 < (stripChars h.2).length
  case neg => rw [processHeading_eq_of_skip corpus st h hcond]; exact ⟨hch, hrec⟩
  case pos =>
    cases hloc : search_heading_in_pdf_content (stripChars h.2) corpus st.2 with
    | some p =>
      obtain ⟨hp1, hp2, hp3⟩ := search_some_facts hloc
      rw [processHeading_eq_of_some corpus st h p hcond hloc,
        if_pos ⟨by omega, hp3⟩]
      constructor
      · rw [List.chain'_append]
        refine ⟨hch, List.chain'_singleton _, ?_⟩
        intro x _ y hy
        rw [List.head?_cons, Option.mem_some_iff] at hy
        subst hy
        intro _ hyf
        exact absurd hyf (by simp)
      · intro r' hr' hm'
        rcases List.mem_append.mp hr' with hold | hnew
        · obtain ⟨a1, a2, a3⟩ := hrec r' hold hm'
          exact ⟨a1, by omega, a3⟩
        · rw [List.mem_singleton] at hnew
          subst hnew
          exact ⟨hp1, le_refl p, hp2⟩
    | none =>
      rw [processHeading_eq_of_none corpus st h hcond hloc]
      constructor
      · rw [List.chain'_append]
        refine ⟨hch, List.chain'_singleton _, ?_⟩
        intro x hx y hy
        rw [List.head?_cons, Option.mem_some_iff] at hy
        subst hy
        intro hxm _
        obtain ⟨hne', hxe⟩ := List.mem_getLast?_eq_getLast hx
        have hxmem : x ∈ st.1 := hxe ▸ List.getLast_mem hne'
        obtain ⟨hx1, hx2, hx3⟩ := hrec x hxmem hxm
        have hcorp : corpus ≠ [] := by
          intro hnil
          rw [hnil] at hx3
          simp only [List.length_nil] at hx3
          omega
        have hq2 : estimate_page_from_surrounding_headings (stripChars h.2) st.1
            corpus st.2 = min (st.2 + 1) corpus.length := by
          unfold estimate_page_from_surrounding_headings
          rw [if_neg hne', if_pos (by omega : 0 < st.2), if_pos hcorp]
        show x.page ≤ estimate_page_from_surrounding_headings (stripChars h.2)
          st.1 corpus st.2
        rw [hq2]
        omega
      · intro r' hr' hm'
        rcases List.mem_append.mp hr' with hold | hnew
        · obtain ⟨a1, a2, a3⟩ := hrec r' hold hm'
          refine ⟨a1, ?_, a3⟩
          split
          · omega
          · exact a2
        · rw [List.mem_singleton] at hnew
          subst hnew
          exact absurd hm' (by simp)

/-- An adjacency property of a `Chain'`, read through `getD`. -/
theorem chain'_getD {α : Type} {R : α → α → Prop} {l : List α}
    (h : List.Chain' R l) (i : Nat) (d : α) (hi : i + 1 < l.length) :
    R (l.getD i d) (l.getD (i + 1) d) := by
  rw [List.chain'_iff_get] at h
  have h' := h i (by omega)
  have e1 : l.getD i d = l.get ⟨i, by omega⟩ := by
    rw [List.getD_eq_getElem?_getD, List.getElem?_eq_getElem (by omega : i < l.length)]
    rfl
  have e2 : l.getD (i + 1) d = l.get ⟨i + 1, by omega⟩ := by
    rw [List.getD_eq_getElem?_getD, List.getElem?_eq_getElem hi]
    rfl
  rw [e1, e2]
  exact h'

/-- C8: in any pass of the Outline Builder, a record resolved by a
positive Locator match is never followed by a fallback-resolved record
with a smaller page — the fallback never regresses behind the cursor. -/
theorem C8_fallback_never_regresses (corpus : List (List Char))
    (hs : List (String × List Char)) (i : Nat)
    (hlen : i + 1 < ((extract_headings_from_html corpus hs).1).length)
    (hm : (((extract_headings_from_html corpus hs).1).getD i dRec).fromMatch = true)
    (hf : (((extract_headings_from_html corpus hs).1).getD (i + 1) dRec).fromMatch
        = false) :
    (((extract_headings_from_html corpus hs).1).getD i dRec).page
      ≤ (((extract_headings_from_html corpus hs).1).getD (i + 1) dRec).page := by
  have hinv : cursorInv corpus (extract_headings_from_html corpus hs) :=
    foldl_processHeading_inv corpus (cursorInv corpus)
      (processHeading_cursorInv corpus) hs ([], 0)
      ⟨List.chain'_nil, by simp⟩
  exact chain'_getD hinv.1 i dRec hlen hm hf

/-- C8 witness: the first heading matches on page 1 of a one-page corpus,
the second falls back (the forward window beyond page 1 is empty) to
`min(1+1, 1) = 1 ≥ 1`. -/
theorem C8_witness :
    (((extract_headings_from_html ["aaa bbb".data]
        [("H1", "aaa bbb".data), ("H2", "zzz qqq".data)]).1).getD 0 dRec).fromMatch
      = true
    ∧ (((extract_headings_from_html ["aaa bbb".data]
        [("H1", "aaa bbb".data), ("H2", "zzz qqq".data)]).1).getD 1 dRec).fromMatch
      = false
    ∧ (((extract_headings_from_html ["aaa bbb".data]
        [("H1", "aaa bbb".data), ("H2", "zzz qqq".data)]).1).getD 0 dRec).page
      ≤ (((extract_headings_from_html ["aaa bbb".data]
        [("H1", "aaa bbb".data), ("H2", "zzz qqq".data)]).1).getD 1 dRec).page :=
  ⟨by decide, by decide,
   C8_fallback_never_regresses ["aaa bbb".data]
     [("H1", "aaa bbb".data), ("H2", "zzz qqq".data)] 0
     (by decide) (by decide) (by decide)⟩

/-- Shape of the outline pass: with every heading passing the length
filter, the output records carry exactly the input levels and trimmed
texts, in order. -/
theorem extract_shape (corpus : List (List Char)) :
    ∀ (hs : List (String × List Char)) (st : List AnnRec × Nat),
      (∀ h ∈ hs, 2 < (stripChars h.2).length) →
      (List.foldl (processHeading corpus) st hs).1.map (fun r => (r.level, r.text))
        = st.1.map (fun r => (r.level, r.text))
          ++ hs.map (fun h => (h.1, stripChars h.2)) := by
  intro hs
  induction hs with
  | nil => intro st _; simp
  | cons h t ih =>
    intro st hfil
    rw [List.foldl_cons]
    have hlen := hfil h (List.mem_cons_self _ _)
    have hcond : stripChars h.2 ≠ [] ∧ 2 < (stripChars h.2).length := by
      refine ⟨?_, hlen⟩
      intro hnil
      rw [hnil] at hlen
      simp at hlen
    have hrest : ∀ x ∈ t, 2 < (stripChars x.2).length :=
      fun x hx => hfil x (List.mem_cons_of_mem _ hx)
    cases hloc : search_heading_in_pdf_content (stripChars h.2) corpus st.2 with
    | some p =>
      rw [processHeading_eq_of_some corpus st h p hcond hloc, ih _ hrest]
      simp
    | none =>
      rw [processHeading_eq_of_none corpus st h hcond hloc, ih _ hrest]
      simp

/-- One outline step keeps every record's page positive. -/
theorem processHeading_pagePos (corpus : List (List Char))
    (st : List AnnRec × Nat) (h : String × List Char)
    (hinv : ∀ r ∈ st.1, 1 ≤ r.page) :
    ∀ r ∈ (processHeading corpus st h).1, 1 ≤ r.page := by
  by_cases hcond : stripChars h.2 ≠ [] ∧ 2 < (stripChars h.2).length
  case neg => rw [processHeading_eq_of_skip corpus st h hcond]; exact hinv
  case pos =>
    cases hloc : search_heading_in_pdf_content (stripChars h.2) corpus st.2 with
    | some p =>
      rw [processHeading_eq_of_some corpus st h p hcond hloc]
      intro r hr
      rcases List.mem_append.mp hr with hold | hnew
      · exact hinv r hold
      · rw [List.mem_singleton] at hnew
        subst hnew
        exact (search_some_facts hloc).1
    | none =>
      rw [processHeading_eq_of_none corpus st h hcond hloc]
      intro r hr
      rcases List.mem_append.mp hr with hold | hnew
      · exact hinv r hold
      · rw [List.mem_singleton] at hnew
        subst hnew
        exact estimate_pos (stripChars h.2) st.1 corpus st.2

/-- C9: when every input heading's trimmed text is longer than 2
characters, the pass returns one record per heading, in the original
order, each carrying the heading's level and trimmed text and a positive
page number — unresolved Locator results are always replaced by an
estimator page, never left absent. -/
theorem C9_one_record_per_heading (corpus : List (List Char))
    (hs : List (String × List Char))
    (hfil : ∀ h ∈ hs, 2 < (stripChars h.2).length) :
    ((extract_headings_from_html corpus hs).1).length = hs.length
    ∧ ((extract_headings_from_html corpus hs).1).map (fun r => (r.level, r.text))
        = hs.map (fun h => (h.1, stripChars h.2))
    ∧ ∀ r ∈ (extract_headings_from_html corpus hs).1, 1 ≤ r.page := by
  have hshape := extract_shape corpus hs ([], 0) hfil
  simp only [extract_headings_from_html]
  refine ⟨?_, by simpa using hshape, ?_⟩
  · have := congrArg List.length hshape
    simpa using this
  · exact foldl_processHeading_inv corpus (fun st => ∀ r ∈ st.1, 1 ≤ r.page)
      (processHeading_pagePos corpus) hs ([], 0) (by simp)

/-- C9 witness: a two-heading run over a one-page corpus yields exactly
two records, in order, with positive pages. -/
theorem C9_witness :
    ((extract_headings_from_html ["alpha beta".data]
      [("H1", "alpha beta".data), ("H2", "gamma delta".data)]).1).length = 2
    ∧ ((extract_headings_from_html ["alpha beta".data]
        [("H1", "alpha beta".data), ("H2", "gamma delta".data)]).1).map
          (fun r => (r.level, r.text))
        = [("H1", "alpha beta".data), ("H2", "gamma delta".data)].map
            (fun h => (h.1, stripChars h.2))
    ∧ ∀ r ∈ (extract_headings_from_html ["alpha beta".data]
        [("H1", "alpha beta".data), ("H2", "gamma delta".data)]).1, 1 ≤ r.page :=
  C9_one_record_per_heading ["alpha beta".data]
    [("H1", "alpha beta".data), ("H2", "gamma delta".data)] (by decide)

/-- C10: a heading whose trimmed text is empty or at most 2 characters
long produces no output record and leaves the cursor unchanged, so runs
containing such headings yield the same outline as runs without them
(the output can be shorter than the input list). -/
theorem C10_short_headings_skipped (corpus : List (List Char))
    (st : List AnnRec × Nat) (lvl : String) (t : List Char)
    (h : stripChars t = [] ∨ (stripChars t).length ≤ 2) :
    processHeading corpus st (lvl, t) = st
    ∧ ∀ hs, List.foldl (processHeading corpus) st ((lvl, t) :: hs)
        = List.foldl (processHeading corpus) st hs := by
  have hstep : processHeading corpus st (lvl, t) = st := by
    refine processHeading_eq_of_skip corpus st (lvl, t) ?_
    rintro ⟨hne, hlen⟩
    have hlen' : 2 < (stripChars t).length := hlen
    rcases h with h | h
    · exact hne h
    · omega
  exact ⟨hstep, fun hs => by rw [List.foldl_cons, hstep]⟩

/-- C10 witness: the two-character heading "ab" is dropped; a run
consisting only of it produces an empty outline. -/
theorem C10_witness :
    processHeading [] ([], 0) ("H1", "ab".data) = ([], 0)
    ∧ List.foldl (processHeading []) ([], 0) [("H1", "ab".data)]
        = List.foldl (processHeading []) ([], 0) [] :=
  ⟨(C10_short_headings_skipped [] ([], 0) "H1" "ab".data (Or.inr (by decide))).1,
   (C10_short_headings_skipped [] ([], 0) "H1" "ab".data (Or.inr (by decide))).2 []⟩
